import Mathlib

/-!
Shallow embedding of the 2-D FDTD Maxwell solver (class `MaxwellSolver`
of the repository).  The dense `Float32Array` field and material arrays
are modelled as functions from the flattened row-major index
`idx = j * nx + i` to real numbers; each mutating method becomes a
function from solver states to solver states, and each per-cell loop
becomes the corresponding pointwise function (every loop of the source
writes each flattened index at most once and reads only values that the
same pass does not write, so the pointwise translation is exact).
Float arithmetic is idealised as exact real arithmetic.
-/

noncomputable section

namespace Maxwell

/-- A dense grid array, indexed by the flattened row-major index. -/
abbrev Grid := ℕ → ℝ

/-- Grid parameters (`GridParams` of the source). -/
structure GridParams where
  nx : ℕ
  ny : ℕ
  dx : ℝ
  dy : ℝ
  dt : ℝ

/-- Material record (`Material` of the source). -/
structure Material where
  epsilon : ℝ
  mu : ℝ
  sigma : ℝ

/-- The eight source kinds of the `Source.type` union. -/
inductive SourceType
  | dipole
  | planeWave
  | antenna
  | gaussian
  | wire
  | pointCharge
  | magnet
  | currentLoop
deriving DecidableEq

/-- Magnet polarity (`'N-S' | 'S-N'`). -/
inductive Polarity
  | NS
  | SN
deriving DecidableEq

/-- A wave source (`Source` of the source file); the optional
TypeScript fields become `Option` fields. -/
structure Source where
  id : String
  type : SourceType
  x : ℝ
  y : ℝ
  frequency : ℝ
  amplitude : ℝ
  phase : ℝ
  width : Option ℝ := none
  length : Option ℝ := none
  angle : Option ℝ := none
  charge : Option ℝ := none
  current : Option ℝ := none
  polarity : Option Polarity := none

/-- A rectangular obstacle (`Obstacle` of the source). -/
structure Obstacle where
  id : String
  x : ℝ
  y : ℝ
  width : ℝ
  height : ℝ
  material : Material

/-- The full solver state: grid parameters, field arrays, material
arrays, pre-computed coefficient arrays, the source and obstacle lists
and the integer step counter. -/
@[ext]
structure SolverState where
  params : GridParams
  Ez : Grid
  Hx : Grid
  Hy : Grid
  epsilon : Grid
  mu : Grid
  sigma : Grid
  Ca : Grid
  Cb : Grid
  Da : Grid
  Db : Grid
  sources : List Source
  obstacles : List Obstacle
  time : ℕ

/-- Vacuum permittivity constant `eps0` of the source. -/
def eps0 : ℝ := 8.854187817e-12

/-- Vacuum permeability constant `mu0 = 4·π·1e-7` of the source. -/
def mu0 : ℝ := 4 * Real.pi * 1e-7

/-- Configured PML thickness (grid cells). -/
def pmlThickness : ℕ := 20

/-- Polynomial grading order of the PML profile. -/
def pmlOrder : ℕ := 3

/-- Target reflection coefficient of the PML profile. -/
def pmlReflection : ℝ := 1e-6

/-- Free-space impedance `eta0 = sqrt(mu0/eps0)` used by `setupPML`. -/
def eta0 : ℝ := Real.sqrt (mu0 / eps0)

/-- `Ca` formula of `updateCoefficients`:
`(1 − σ·dt/(2ε)) / (1 + σ·dt/(2ε))` with `ε = εᵣ·ε₀`. -/
def coeffCa (dt epsr sig : ℝ) : ℝ :=
  (1 - sig * dt / (2 * (epsr * eps0))) / (1 + sig * dt / (2 * (epsr * eps0)))

/-- `Cb` formula of `updateCoefficients`: `(dt/ε) / (1 + σ·dt/(2ε))`. -/
def coeffCb (dt epsr sig : ℝ) : ℝ :=
  (dt / (epsr * eps0)) / (1 + sig * dt / (2 * (epsr * eps0)))

/-- `Db` formula of `updateCoefficients`: `dt/μ` with `μ = μᵣ·μ₀`. -/
def coeffDb (dt mur : ℝ) : ℝ :=
  dt / (mur * mu0)

/-- `updateCoefficients`: recompute the four coefficient arrays from the
current material arrays on every in-range cell. -/
def updateCoefficients (s : SolverState) : SolverState :=
  let p := s.params
  let size := p.nx * p.ny
  { s with
    Ca := fun idx => if idx < size then coeffCa p.dt (s.epsilon idx) (s.sigma idx) else s.Ca idx
    Cb := fun idx => if idx < size then coeffCb p.dt (s.epsilon idx) (s.sigma idx) else s.Cb idx
    Da := fun idx => if idx < size then 1 else s.Da idx
    Db := fun idx => if idx < size then coeffDb p.dt (s.mu idx) else s.Db idx }

/-- Effective PML thickness: `min(pmlThickness, ⌊min(nx,ny)/4⌋)`. -/
def pmlThicknessEff (p : GridParams) : ℕ :=
  min pmlThickness (min p.nx p.ny / 4)

/-- Per-axis peak PML conductivity along x:
`−(m+1)·ln(R) / (2·η₀·T·dx)`. -/
def sigmaMaxX (p : GridParams) : ℝ :=
  -(((pmlOrder : ℝ) + 1) * Real.log pmlReflection) /
    (2 * eta0 * (pmlThicknessEff p : ℝ) * p.dx)

/-- Per-axis peak PML conductivity along y. -/
def sigmaMaxY (p : GridParams) : ℝ :=
  -(((pmlOrder : ℝ) + 1) * Real.log pmlReflection) /
    (2 * eta0 * (pmlThicknessEff p : ℝ) * p.dy)

/-- One-dimensional graded PML conductivity profile of `setupPML`:
position `i` on an axis of `n` cells, band thickness `T`, peak `sm`. -/
def pmlProfile (T n : ℕ) (sm : ℝ) (i : ℕ) : ℝ :=
  if i < T then
    sm * (((T : ℝ) - (i : ℝ)) / (T : ℝ)) ^ pmlOrder
  else if n ≤ i + T then
    sm * (min (((i : ℝ) - ((n : ℝ) - (T : ℝ) - 1)) / (T : ℝ)) 1) ^ pmlOrder
  else 0

/-- PML conductivity contribution of the x-direction bands at column `i`. -/
def pmlSigmaX (p : GridParams) (i : ℕ) : ℝ :=
  pmlProfile (pmlThicknessEff p) p.nx (sigmaMaxX p) i

/-- PML conductivity contribution of the y-direction bands at row `j`. -/
def pmlSigmaY (p : GridParams) (j : ℕ) : ℝ :=
  pmlProfile (pmlThicknessEff p) p.ny (sigmaMaxY p) j

/-- One cell of `setupPML`'s merge loop: for an in-range cell whose
overlay `sigmaX + sigmaY` is positive, the stored conductivity becomes
the maximum of the old value and the overlay. -/
def pmlMergePoint (p : GridParams) (idx : ℕ) (v : ℝ) : ℝ :=
  if idx < p.nx * p.ny then
    let ov := pmlSigmaX p (idx % p.nx) + pmlSigmaY p (idx / p.nx)
    if 0 < ov then max v ov else v
  else v

/-- Merge of the PML overlay into a conductivity array (`setupPML`'s
loop); if the effective thickness is zero the method returns without
touching the array. -/
def pmlMergeSigma (p : GridParams) (sig : Grid) : Grid :=
  if pmlThicknessEff p = 0 then sig
  else fun idx => pmlMergePoint p idx (sig idx)

/-- `setupPML`: merge the graded boundary conductivity overlay into the
solver's sigma array. -/
def setupPML (s : SolverState) : SolverState :=
  { s with sigma := pmlMergeSigma s.params s.sigma }

/-- The constructor's state before `setupPML` runs: all-zero fields and
coefficients, vacuum materials, empty lists. -/
def initState (p : GridParams) : SolverState :=
  { params := p
    Ez := fun _ => 0
    Hx := fun _ => 0
    Hy := fun _ => 0
    epsilon := fun _ => 1
    mu := fun _ => 1
    sigma := fun _ => 0
    Ca := fun _ => 0
    Cb := fun _ => 0
    Da := fun _ => 0
    Db := fun _ => 0
    sources := []
    obstacles := []
    time := 0 }

/-- The constructor: all-zero fields, vacuum materials, then `setupPML`
followed by `updateCoefficients`. -/
def construct (p : GridParams) : SolverState :=
  updateCoefficients (setupPML (initState p))

/-- `updateH`: new `(Hx, Hy)` pair.  The `Hx` loop runs over
`j < ny − 1`, all `i < nx`; the `Hy` loop over all `j < ny`,
`i < nx − 1`. -/
def updateH (p : GridParams) (Ez Hx Hy Da Db : Grid) : Grid × Grid :=
  (fun idx =>
     if idx % p.nx < p.nx ∧ idx / p.nx < p.ny - 1 then
       Da idx * Hx idx - Db idx * ((Ez (idx + p.nx) - Ez idx) / p.dy)
     else Hx idx,
   fun idx =>
     if idx % p.nx < p.nx - 1 ∧ idx / p.nx < p.ny then
       Da idx * Hy idx + Db idx * ((Ez (idx + 1) - Ez idx) / p.dx)
     else Hy idx)

/-- `updateE`: new `Ez`; the loop runs over `1 ≤ i < nx`, `1 ≤ j < ny`. -/
def updateE (p : GridParams) (Ez Hx Hy Ca Cb : Grid) : Grid :=
  fun idx =>
    if 0 < idx % p.nx ∧ 0 < idx / p.nx ∧ idx / p.nx < p.ny then
      Ca idx * Ez idx +
        Cb idx * ((Hy idx - Hy (idx - 1)) / p.dx - (Hx idx - Hx (idx - p.nx)) / p.dy)
    else Ez idx

/-- `applyBoundaries`: force `Ez` to zero on the left and right columns
(for every row `j < ny`), the top row (`idx < nx`) and the bottom row
(`j = ny − 1`). -/
def applyBoundaries (p : GridParams) (Ez : Grid) : Grid :=
  fun idx =>
    if (idx % p.nx = 0 ∧ idx / p.nx < p.ny) ∨
       (idx % p.nx = p.nx - 1 ∧ idx / p.nx < p.ny) ∨
       idx < p.nx ∨
       (idx / p.nx = p.ny - 1 ∧ idx % p.nx < p.nx) then 0
    else Ez idx

/-- Add `v` into a grid at one flattened index (`Ez[idx] += v`). -/
def addAt (g : Grid) (idx : ℕ) (v : ℝ) : Grid :=
  fun k => if k = idx then g k + v else g k

/-- Flattened index of the integer cell `(i, j)`. -/
def cellIdx (p : GridParams) (i j : ℤ) : ℕ :=
  (j * (p.nx : ℤ) + i).toNat

/-- In-bounds test for an integer cell, as in the per-cell guards of
`applySources`. -/
def cellInBounds (p : GridParams) (i j : ℤ) : Prop :=
  0 ≤ i ∧ i < (p.nx : ℤ) ∧ 0 ≤ j ∧ j < (p.ny : ℤ)

instance (p : GridParams) (i j : ℤ) : Decidable (cellInBounds p i j) := by
  unfold cellInBounds; infer_instance

/-- JavaScript `v || d` on an optional numeric field: the default is
taken when the field is absent or zero. -/
def orDefault (v : Option ℝ) (d : ℝ) : ℝ :=
  match v with
  | none => d
  | some x => if x = 0 then d else x

/-- Offsets `−10..10` of the point-charge stamp. -/
def chargeOffsets : List ℤ :=
  (List.range 21).map (fun a => (a : ℤ) - 10)

/-- Offsets `−15..15` of the magnet stamp. -/
def magnetOffsets : List ℤ :=
  (List.range 31).map (fun a => (a : ℤ) - 15)

/-- One source's contribution of `applySources` at simulation time `t`:
truncate the source position, skip the source when the cell is out of
bounds, then dispatch on the source type. -/
def applySource (p : GridParams) (t : ℝ) (g : Grid) (src : Source) : Grid :=
  let i : ℤ := ⌊src.x⌋
  let j : ℤ := ⌊src.y⌋
  if i < 0 ∨ (p.nx : ℤ) ≤ i ∨ j < 0 ∨ (p.ny : ℤ) ≤ j then g
  else
    let idx := cellIdx p i j
    let om : ℝ := 2 * Real.pi
    let freq := src.frequency
    match src.type with
  | .dipole =>
      addAt g idx (src.amplitude * Real.sin (om * freq * t + src.phase))
  | .antenna =>
      addAt g idx (src.amplitude * Real.sin (om * freq * t + src.phase))
  | .planeWave =>
      addAt g idx (src.amplitude * Real.sin (om * freq * t + src.phase))
  | .gaussian =>
      let t0 := 3 / freq
      let tau := 1 / freq
      let env := Real.exp (-(((t - t0) / tau) ^ 2))
      addAt g idx (src.amplitude * env * Real.sin (om * freq * t + src.phase))
  | .wire =>
      let wireLen := orDefault src.length 20
      let wireAngle := orDefault src.angle 0
      let cur := orDefault src.current 1
      (List.range (Int.toNat ⌈wireLen⌉)).foldl (fun g k =>
        let wi : ℤ := ⌊(i : ℝ) + (k : ℝ) * Real.cos wireAngle⌋
        let wj : ℤ := ⌊(j : ℝ) + (k : ℝ) * Real.sin wireAngle⌋
        if cellInBounds p wi wj then
          addAt g (cellIdx p wi wj)
            (cur * Real.sin (om * freq * t + src.phase) * src.amplitude * 0.5)
        else g) g
  | .pointCharge =>
      let q := orDefault src.charge 1e-9
      let osc := Real.sin (om * freq * t + src.phase)
      chargeOffsets.foldl (fun g dj =>
        chargeOffsets.foldl (fun g di =>
          let ci := i + di
          let cj := j + dj
          if cellInBounds p ci cj then
            let r := Real.sqrt ((di : ℝ) * (di : ℝ) + (dj : ℝ) * (dj : ℝ)) + 1e-6
            addAt g (cellIdx p ci cj) (q / (r * r) * osc * src.amplitude)
          else g) g) g
  | .magnet =>
      let strength := src.amplitude
      let magnetAngle := orDefault src.angle 0
      let pol : ℝ := match src.polarity with
        | some .NS => 1
        | _ => -1
      magnetOffsets.foldl (fun g dj =>
        magnetOffsets.foldl (fun g di =>
          let mi := i + di
          let mj := j + dj
          if cellInBounds p mi mj then
            let r := Real.sqrt ((di : ℝ) * (di : ℝ) + (dj : ℝ) * (dj : ℝ)) + 1e-6
            let dxr := (di : ℝ) * Real.cos magnetAngle - (dj : ℝ) * Real.sin magnetAngle
            let dyr := (di : ℝ) * Real.sin magnetAngle + (dj : ℝ) * Real.cos magnetAngle
            let fld := pol * strength * (3 * dxr * dyr) / r ^ 5
            addAt g (cellIdx p mi mj) (fld * Real.sin (om * freq * t + src.phase))
          else g) g) g
  | .currentLoop =>
      let loopRadius := orDefault src.width 10
      let loopCur := orDefault src.current 1
      let numPoints : ℤ := ⌊2 * Real.pi * loopRadius⌋
      (List.range numPoints.toNat).foldl (fun g k =>
        let theta := 2 * Real.pi * (k : ℝ) / (numPoints : ℝ)
        let li : ℤ := ⌊(i : ℝ) + loopRadius * Real.cos theta⌋
        let lj : ℤ := ⌊(j : ℝ) + loopRadius * Real.sin theta⌋
        if cellInBounds p li lj then
          addAt g (cellIdx p li lj)
            (loopCur * Real.sin (om * freq * t + src.phase) * src.amplitude * 0.3)
        else g) g

/-- `applySources`: fold every source's contribution into `Ez` at
simulation time `t = stepCounter · dt`. -/
def applySources (p : GridParams) (srcs : List Source) (tIdx : ℕ) (g : Grid) : Grid :=
  srcs.foldl (applySource p ((tIdx : ℝ) * p.dt)) g

/-- `step()`: magnetic update, source injection (at the pre-increment
time index), electric update, boundary enforcement, then increment the
step counter. -/
def step (s : SolverState) : SolverState :=
  { s with
    Ez := applyBoundaries s.params
      (updateE s.params
        (applySources s.params s.sources s.time s.Ez)
        (updateH s.params s.Ez s.Hx s.Hy s.Da s.Db).1
        (updateH s.params s.Ez s.Hx s.Hy s.Da s.Db).2
        s.Ca s.Cb)
    Hx := (updateH s.params s.Ez s.Hx s.Hy s.Da s.Db).1
    Hy := (updateH s.params s.Ez s.Hx s.Hy s.Da s.Db).2
    time := s.time + 1 }

/-- `run(steps)`: iterate `step`. -/
def run (s : SolverState) (n : ℕ) : SolverState :=
  step^[n] s

/-- `addSource`: push onto the source list. -/
def addSource (s : SolverState) (src : Source) : SolverState :=
  { s with sources := s.sources ++ [src] }

/-- `removeSource`: filter the source list by id. -/
def removeSource (s : SolverState) (id : String) : SolverState :=
  { s with sources := s.sources.filter (fun src => !(src.id == id)) }

/-- Rectangle membership of `applyObstacle`/`removeObstacleMaterial`:
cell `(i, j)` lies in `[⌊x⌋, ⌊x+width⌋) × [⌊y⌋, ⌊y+height⌋)`. -/
def inRect (o : Obstacle) (i j : ℤ) : Prop :=
  ⌊o.x⌋ ≤ i ∧ i < ⌊o.x + o.width⌋ ∧ ⌊o.y⌋ ≤ j ∧ j < ⌊o.y + o.height⌋

instance (o : Obstacle) (i j : ℤ) : Decidable (inRect o i j) := by
  unfold inRect; infer_instance

/-- A flattened index is written by the rasterizer loops for obstacle
`o`: it is in the array range and its cell lies in `o`'s rectangle. -/
def obstacleHit (p : GridParams) (o : Obstacle) (idx : ℕ) : Prop :=
  idx < p.nx * p.ny ∧ inRect o ((idx % p.nx : ℕ) : ℤ) ((idx / p.nx : ℕ) : ℤ)

instance (p : GridParams) (o : Obstacle) (idx : ℕ) : Decidable (obstacleHit p o idx) := by
  unfold obstacleHit; infer_instance

/-- `applyObstacle`: overwrite the material arrays with the obstacle's
material on every in-bounds cell of its rectangle. -/
def applyObstacle (s : SolverState) (o : Obstacle) : SolverState :=
  { s with
    epsilon := fun idx => if obstacleHit s.params o idx then o.material.epsilon else s.epsilon idx
    mu := fun idx => if obstacleHit s.params o idx then o.material.mu else s.mu idx
    sigma := fun idx => if obstacleHit s.params o idx then o.material.sigma else s.sigma idx }

/-- `removeObstacleMaterial`: reset every in-bounds cell of the
obstacle's rectangle to vacuum `(1, 1, 0)`. -/
def removeObstacleMaterial (s : SolverState) (o : Obstacle) : SolverState :=
  { s with
    epsilon := fun idx => if obstacleHit s.params o idx then 1 else s.epsilon idx
    mu := fun idx => if obstacleHit s.params o idx then 1 else s.mu idx
    sigma := fun idx => if obstacleHit s.params o idx then 0 else s.sigma idx }

/-- `addObstacle`: push, rasterize, re-grade PML, recompile coefficients. -/
def addObstacle (s : SolverState) (o : Obstacle) : SolverState :=
  updateCoefficients (setupPML
    (applyObstacle { s with obstacles := s.obstacles ++ [o] } o))

/-- `removeObstacle`: find by id (no-op when absent), erase its
material, filter the list, re-grade PML, recompile coefficients. -/
def removeObstacle (s : SolverState) (id : String) : SolverState :=
  match s.obstacles.find? (fun o => o.id == id) with
  | none => s
  | some o =>
      updateCoefficients (setupPML
        { removeObstacleMaterial s o with
          obstacles := s.obstacles.filter (fun o2 => !(o2.id == id)) })

/-- The state reached inside `addObstacle` right after the rasterizer
pass (before its `setupPML`/`updateCoefficients`), starting from a
fresh solver. -/
def paintedState (p : GridParams) (o : Obstacle) : SolverState :=
  applyObstacle { construct p with obstacles := (construct p).obstacles ++ [o] } o

/-- The state reached inside `removeObstacle` right after the erase
pass and the list filter (before its `setupPML`/`updateCoefficients`),
for an add-then-remove round trip from a fresh solver. -/
def addRemoveMid (p : GridParams) (o : Obstacle) : SolverState :=
  { removeObstacleMaterial (addObstacle (construct p) o) o with
    obstacles := (addObstacle (construct p) o).obstacles.filter
      (fun o2 => !(o2.id == o.id)) }

/-- `reset()`: zero the field arrays and the step counter, then re-run
`setupPML`; materials, sources and obstacles are untouched. -/
def reset (s : SolverState) : SolverState :=
  setupPML
    { s with
      Ez := fun _ => 0
      Hx := fun _ => 0
      Hy := fun _ => 0
      time := 0 }

/-- `getTime()`: step counter times `dt`. -/
def getTime (s : SolverState) : ℝ :=
  (s.time : ℝ) * s.params.dt

/-- `getSources()`. -/
def getSources (s : SolverState) : List Source :=
  s.sources

/-- `getObstacles()`. -/
def getObstacles (s : SolverState) : List Obstacle :=
  s.obstacles

/-- Result record of `getFieldAt`. -/
structure FieldSample where
  Ez : ℝ
  Hx : ℝ
  Hy : ℝ

/-- `getFieldAt(x, y)`: truncate to an integer cell, flatten to
`idx = j·nx + i`, and read each array there; an index outside the
array range reads `undefined`, which `|| 0` turns into `0`. -/
def getFieldAt (s : SolverState) (x y : ℝ) : FieldSample :=
  let p := s.params
  let i : ℤ := ⌊x⌋
  let j : ℤ := ⌊y⌋
  let idx : ℤ := j * (p.nx : ℤ) + i
  if 0 ≤ idx ∧ idx < ((p.nx : ℤ) * (p.ny : ℤ)) then
    ⟨s.Ez idx.toNat, s.Hx idx.toNat, s.Hy idx.toNat⟩
  else ⟨0, 0, 0⟩

/-- The coefficient arrays agree, on every in-range cell, with the
documented formulas evaluated on the current material arrays:
`Ca = (1 − σ·dt/(2ε))/(1 + σ·dt/(2ε))`, `Cb = (dt/ε)/(1 + σ·dt/(2ε))`,
`Da = 1`, `Db = dt/μ`, where `ε = εᵣ·ε₀` and `μ = μᵣ·μ₀`. -/
def coeffsMatchMaterials (s : SolverState) : Prop :=
  ∀ idx, idx < s.params.nx * s.params.ny →
    s.Ca idx = (1 - s.sigma idx * s.params.dt / (2 * (s.epsilon idx * eps0))) /
               (1 + s.sigma idx * s.params.dt / (2 * (s.epsilon idx * eps0))) ∧
    s.Cb idx = (s.params.dt / (s.epsilon idx * eps0)) /
               (1 + s.sigma idx * s.params.dt / (2 * (s.epsilon idx * eps0))) ∧
    s.Da idx = 1 ∧
    s.Db idx = s.params.dt / (s.mu idx * mu0)

/-- Concrete 8×8 grid with unit steps, used for concrete instances. -/
def p8 : GridParams := ⟨8, 8, 1, 1, 1⟩

/-- Concrete dipole source at cell (4,4), amplitude 1, frequency 1/4,
phase 0, on the grid `p8` (so that `2π·f·dt = π/2`). -/
def dip8 : Source :=
  { id := "d1", type := SourceType.dipole, x := 4, y := 4,
    frequency := 1/4, amplitude := 1, phase := 0 }

/-- Concrete 80×80 grid with unit steps: large enough that the
effective PML thickness is the full 20 cells. -/
def p80 : GridParams := ⟨80, 80, 1, 1, 1⟩

/-- Concrete one-cell obstacle covering cell (0,0), inside the PML
band of `p80`. -/
def obs80 : Obstacle :=
  { id := "o1", x := 0, y := 0, width := 1, height := 1,
    material := ⟨2, 1, 0⟩ }

/-- Concrete 4×4 grid with unit steps. -/
def p4 : GridParams := ⟨4, 4, 1, 1, 1⟩

/-- Concrete 4×4 solver state whose `Ez` array holds 1 at flattened
index 5 and 0 elsewhere (such a field value is reachable, e.g. by
source injection). -/
def sampleState4 : SolverState :=
  { params := p4
    Ez := fun k => if k = 5 then 1 else 0
    Hx := fun _ => 0
    Hy := fun _ => 0
    epsilon := fun _ => 1
    mu := fun _ => 1
    sigma := fun _ => 0
    Ca := fun _ => 0
    Cb := fun _ => 0
    Da := fun _ => 0
    Db := fun _ => 0
    sources := []
    obstacles := []
    time := 0 }

/-! ### Helper lemmas -/

/-- The constructor leaves the grid parameters untouched. -/
@[simp]
theorem construct_params (p : GridParams) : (construct p).params = p := rfl

/-- `step` leaves the grid parameters untouched. -/
@[simp]
theorem step_params (s : SolverState) : (step s).params = s.params := rfl

/-- `step` leaves the source list untouched. -/
@[simp]
theorem step_sources (s : SolverState) : (step s).sources = s.sources := rfl

/-- Row-major decomposition: the column of `j·nx + i`. -/
theorem cell_mod {nx : ℕ} (i j : ℕ) (hi : i < nx) : (j * nx + i) % nx = i := by
  rw [Nat.mul_comm, Nat.mul_add_mod, Nat.mod_eq_of_lt hi]

/-- Row-major decomposition: the row of `j·nx + i`. -/
theorem cell_div {nx : ℕ} (i j : ℕ) (hnx : 0 < nx) (hi : i < nx) :
    (j * nx + i) / nx = j := by
  rw [Nat.mul_comm, Nat.mul_add_div hnx, Nat.div_eq_of_lt hi, Nat.add_zero]

/-- A decomposed in-bounds cell has an in-range flattened index. -/
theorem cell_lt {nx ny : ℕ} (i j : ℕ) (hi : i < nx) (hj : j < ny) :
    j * nx + i < nx * ny := by
  have h1 : (j + 1) * nx = j * nx + nx := by ring
  have h2 : (j + 1) * nx ≤ ny * nx := Nat.mul_le_mul_right nx (by omega)
  have h3 : ny * nx = nx * ny := Nat.mul_comm ny nx
  omega

/-- `updateH` keeps an all-zero `Hx` array all zero when `Ez` is zero. -/
theorem updateH_fst_zero (p : GridParams) (Ez Hx Hy Da Db : Grid)
    (hE : ∀ k, Ez k = 0) (hHx : ∀ k, Hx k = 0) :
    ∀ k, (updateH p Ez Hx Hy Da Db).1 k = 0 := by
  intro k
  unfold updateH
  dsimp only
  split
  · simp [hE, hHx]
  · exact hHx k

/-- `updateH` keeps an all-zero `Hy` array all zero when `Ez` is zero. -/
theorem updateH_snd_zero (p : GridParams) (Ez Hx Hy Da Db : Grid)
    (hE : ∀ k, Ez k = 0) (hHy : ∀ k, Hy k = 0) :
    ∀ k, (updateH p Ez Hx Hy Da Db).2 k = 0 := by
  intro k
  unfold updateH
  dsimp only
  split
  · simp [hE, hHy]
  · exact hHy k

/-- `updateE` keeps an all-zero `Ez` array all zero when `Hx`, `Hy`
are zero. -/
theorem updateE_zero (p : GridParams) (Ez Hx Hy Ca Cb : Grid)
    (hE : ∀ k, Ez k = 0) (hHx : ∀ k, Hx k = 0) (hHy : ∀ k, Hy k = 0) :
    ∀ k, updateE p Ez Hx Hy Ca Cb k = 0 := by
  intro k
  unfold updateE
  split
  · simp [hE, hHx, hHy]
  · exact hE k

/-- `applyBoundaries` preserves an all-zero `Ez` array. -/
theorem applyBoundaries_zero (p : GridParams) (Ez : Grid) (hE : ∀ k, Ez k = 0) :
    ∀ k, applyBoundaries p Ez k = 0 := by
  intro k
  unfold applyBoundaries
  split
  · rfl
  · exact hE k

/-- One `step` keeps all three field arrays zero provided the source
injection pass leaves the zero `Ez` array zero. -/
theorem step_zero (s : SolverState) (hE : ∀ k, s.Ez k = 0)
    (hHx : ∀ k, s.Hx k = 0) (hHy : ∀ k, s.Hy k = 0)
    (hApp : ∀ k, applySources s.params s.sources s.time s.Ez k = 0) :
    (∀ k, (step s).Ez k = 0) ∧ (∀ k, (step s).Hx k = 0) ∧ (∀ k, (step s).Hy k = 0) := by
  refine ⟨?_,
    updateH_fst_zero s.params s.Ez s.Hx s.Hy s.Da s.Db hE hHx,
    updateH_snd_zero s.params s.Ez s.Hx s.Hy s.Da s.Db hE hHy⟩
  intro k
  show applyBoundaries _ _ k = 0
  apply applyBoundaries_zero
  apply updateE_zero
  · exact hApp
  · exact updateH_fst_zero s.params s.Ez s.Hx s.Hy s.Da s.Db hE hHx
  · exact updateH_snd_zero s.params s.Ez s.Hx s.Hy s.Da s.Db hE hHy

/-- Iterating `step` from a quiescent sourceless state stays quiescent. -/
theorem quiescent_iterate (s : SolverState) (hsrc : s.sources = [])
    (hE : ∀ k, s.Ez k = 0) (hHx : ∀ k, s.Hx k = 0) (hHy : ∀ k, s.Hy k = 0) :
    ∀ n, (step^[n] s).sources = [] ∧ (∀ k, (step^[n] s).Ez k = 0) ∧
      (∀ k, (step^[n] s).Hx k = 0) ∧ (∀ k, (step^[n] s).Hy k = 0) := by
  intro n
  induction n with
  | zero => exact ⟨hsrc, hE, hHx, hHy⟩
  | succ n ih =>
    obtain ⟨h1, h2, h3, h4⟩ := ih
    rw [Function.iterate_succ_apply']
    have hApp : ∀ k,
        applySources (step^[n] s).params (step^[n] s).sources (step^[n] s).time
          (step^[n] s).Ez k = 0 := by
      intro k
      rw [h1]
      exact h2 k
    obtain ⟨z1, z2, z3⟩ := step_zero _ h2 h3 h4 hApp
    exact ⟨h1, z1, z2, z3⟩

/-- One cell of the PML merge is idempotent. -/
theorem pmlMergePoint_idem (p : GridParams) (idx : ℕ) (v : ℝ) :
    pmlMergePoint p idx (pmlMergePoint p idx v) = pmlMergePoint p idx v := by
  by_cases h1 : idx < p.nx * p.ny
  · by_cases h2 : 0 < pmlSigmaX p (idx % p.nx) + pmlSigmaY p (idx / p.nx)
    · simp [pmlMergePoint, h1, h2, max_assoc]
    · simp [pmlMergePoint, h1, h2]
  · simp [pmlMergePoint, h1]

/-- The PML merge pass is idempotent on conductivity arrays. -/
theorem pmlMergeSigma_idem (p : GridParams) (sig : Grid) :
    pmlMergeSigma p (pmlMergeSigma p sig) = pmlMergeSigma p sig := by
  by_cases hT : pmlThicknessEff p = 0
  · simp [pmlMergeSigma, hT]
  · simp [pmlMergeSigma, hT, pmlMergePoint_idem]

/-- After a fresh `updateCoefficients` pass the coefficient arrays
match the material arrays. -/
theorem coeffs_after_update (t : SolverState) :
    coeffsMatchMaterials (updateCoefficients t) := by
  intro idx h
  refine ⟨?_, ?_, ?_, ?_⟩ <;>
    simp [updateCoefficients, coeffCa, coeffCb, coeffDb, coeffsMatchMaterials] at h ⊢ <;>
    simp [h]

/-! ### Claim theorems -/

/-- Claim C10: `step()` modifies only the `Ez`, `Hx`, `Hy` field arrays
and the integer step counter; the grid parameters, the material arrays,
the coefficient arrays, the source list and the obstacle list are all
unchanged, and the counter increases by one. -/
theorem step_frame_effect (s : SolverState) :
    (step s).params = s.params ∧ (step s).epsilon = s.epsilon ∧
    (step s).mu = s.mu ∧ (step s).sigma = s.sigma ∧
    (step s).Ca = s.Ca ∧ (step s).Cb = s.Cb ∧
    (step s).Da = s.Da ∧ (step s).Db = s.Db ∧
    (step s).sources = s.sources ∧ (step s).obstacles = s.obstacles ∧
    (step s).time = s.time + 1 :=
  ⟨rfl, rfl, rfl, rfl, rfl, rfl, rfl, rfl, rfl, rfl, rfl⟩

/-- Claim C8: after `reset()` the step counter and `getTime()` are zero,
all three field arrays are zero, and the source and obstacle lists are
unchanged. -/
theorem reset_contract (s : SolverState) :
    (reset s).time = 0 ∧ getTime (reset s) = 0 ∧
    (∀ k, (reset s).Ez k = 0) ∧ (∀ k, (reset s).Hx k = 0) ∧
    (∀ k, (reset s).Hy k = 0) ∧
    getSources (reset s) = getSources s ∧
    getObstacles (reset s) = getObstacles s := by
  refine ⟨rfl, ?_, fun _ => rfl, fun _ => rfl, fun _ => rfl, rfl, rfl⟩
  show ((0 : ℕ) : ℝ) * s.params.dt = 0
  simp

/-- Claim C9: `setupPML` is idempotent — re-running it on a state whose
sigma array has already been merged changes nothing; in particular the
`setupPML` call inside `reset()` never changes the sigma array of a
state produced by a merge-then-recompute pass. -/
theorem setupPML_idempotent (s : SolverState) :
    setupPML (setupPML s) = setupPML s ∧
    (reset (updateCoefficients (setupPML s))).sigma =
      (updateCoefficients (setupPML s)).sigma := by
  constructor
  · refine SolverState.ext rfl rfl rfl rfl rfl rfl ?_ rfl rfl rfl rfl rfl rfl rfl
    exact pmlMergeSigma_idem s.params s.sigma
  · exact pmlMergeSigma_idem s.params s.sigma

/-- Claim C3: a solver with no sources and all-zero fields stays
all-zero after any number of `step()` calls. -/
theorem vacuum_quiescence (s : SolverState) (hsrc : s.sources = [])
    (hE : ∀ k, s.Ez k = 0) (hHx : ∀ k, s.Hx k = 0) (hHy : ∀ k, s.Hy k = 0) :
    ∀ n k, (step^[n] s).Ez k = 0 ∧ (step^[n] s).Hx k = 0 ∧ (step^[n] s).Hy k = 0 := by
  intro n k
  obtain ⟨-, h2, h3, h4⟩ := quiescent_iterate s hsrc hE hHx hHy n
  exact ⟨h2 k, h3 k, h4 k⟩

/-- Witness for C3: the freshly constructed 4×4 grid stays zero for
three steps, checked at flattened index 5. -/
theorem vacuum_quiescence_witness :
    (step^[3] (construct p4)).Ez 5 = 0 ∧ (step^[3] (construct p4)).Hx 5 = 0 ∧
      (step^[3] (construct p4)).Hy 5 = 0 :=
  vacuum_quiescence (construct p4) rfl (fun _ => rfl) (fun _ => rfl) (fun _ => rfl) 3 5

/-- Claim C2: after construction and after every obstacle add/remove
(the latter from a state whose coefficients already match, to cover the
no-op remove of an absent id), the coefficient arrays satisfy the
documented formulas over the current material arrays. -/
theorem coefficient_formulas (p : GridParams) (s : SolverState) (o : Obstacle)
    (id : String) (hs : coeffsMatchMaterials s) :
    coeffsMatchMaterials (construct p) ∧ coeffsMatchMaterials (addObstacle s o) ∧
      coeffsMatchMaterials (removeObstacle s id) := by
  refine ⟨coeffs_after_update _, coeffs_after_update _, ?_⟩
  cases hf : s.obstacles.find? (fun o2 => o2.id == id) with
  | none => simpa [removeObstacle, hf] using hs
  | some o2 => simpa [removeObstacle, hf] using coeffs_after_update _

/-- Witness for C2: concrete instantiation on the 4×4 grid. -/
theorem coefficient_formulas_witness :
    coeffsMatchMaterials (construct p4) ∧
      coeffsMatchMaterials (addObstacle (construct p4) obs80) ∧
      coeffsMatchMaterials (removeObstacle (construct p4) "o1") :=
  coefficient_formulas p4 (construct p4) obs80 "o1" (coeffs_after_update _)

/-- Claim C4: immediately after every `step()` call, `Ez` is exactly 0
at every cell of the outer rim (column 0, column nx−1, row 0,
row ny−1). -/
theorem boundary_clamp (s : SolverState) (hnx : 0 < s.params.nx)
    (hny : 0 < s.params.ny) (idx : ℕ)
    (hidx : idx < s.params.nx * s.params.ny)
    (hrim : idx % s.params.nx = 0 ∨ idx % s.params.nx = s.params.nx - 1 ∨
            idx / s.params.nx = 0 ∨ idx / s.params.nx = s.params.ny - 1) :
    (step s).Ez idx = 0 := by
  have hdiv : idx / s.params.nx < s.params.ny := by
    rw [Nat.div_lt_iff_lt_mul hnx]
    rwa [Nat.mul_comm] at hidx
  have hcond : (idx % s.params.nx = 0 ∧ idx / s.params.nx < s.params.ny) ∨
      (idx % s.params.nx = s.params.nx - 1 ∧ idx / s.params.nx < s.params.ny) ∨
      idx < s.params.nx ∨
      (idx / s.params.nx = s.params.ny - 1 ∧ idx % s.params.nx < s.params.nx) := by
    rcases hrim with h | h | h | h
    · exact Or.inl ⟨h, hdiv⟩
    · exact Or.inr (Or.inl ⟨h, hdiv⟩)
    · refine Or.inr (Or.inr (Or.inl ?_))
      have hdm := Nat.div_add_mod idx s.params.nx
      have hm : idx % s.params.nx < s.params.nx := Nat.mod_lt idx hnx
      have h0 : s.params.nx * (idx / s.params.nx) = 0 := by rw [h, Nat.mul_zero]
      omega
    · exact Or.inr (Or.inr (Or.inr ⟨h, Nat.mod_lt idx hnx⟩))
  show applyBoundaries _ _ idx = 0
  unfold applyBoundaries
  rw [if_pos hcond]

/-- Witness for C4: the top-left corner of a stepped 4×4 grid. -/
theorem boundary_clamp_witness : (step (construct p4)).Ez 0 = 0 :=
  boundary_clamp (construct p4) (by simp [p4]) (by simp [p4]) 0
    (by simp [p4]) (Or.inl (by simp))

/-- Claim C6 (amended): `getFieldAt` truncates its arguments to the
integer cell `(⌊x⌋, ⌊y⌋)` and returns 0 for every component whenever
the flattened index `⌊y⌋·nx + ⌊x⌋` falls outside the array range
`[0, nx·ny)`, without error; an out-of-bounds cell whose flattened
index lands inside the range instead reads the wrapped cell. -/
theorem getFieldAt_flat_oob_zero (s : SolverState) (x y : ℝ)
    (h : ⌊y⌋ * (s.params.nx : ℤ) + ⌊x⌋ < 0 ∨
         (s.params.nx : ℤ) * (s.params.ny : ℤ) ≤ ⌊y⌋ * (s.params.nx : ℤ) + ⌊x⌋) :
    getFieldAt s x y = ⟨0, 0, 0⟩ := by
  simp only [getFieldAt]
  split
  · next hc =>
      exfalso
      obtain ⟨h1, h2⟩ := hc
      rcases h with h | h <;> omega
  · rfl

/-- Witness for C6 (amended): a negative flattened index returns the
zero sample. -/
theorem getFieldAt_flat_oob_zero_witness :
    getFieldAt (construct p4) (-1) 0 = ⟨0, 0, 0⟩ :=
  getFieldAt_flat_oob_zero (construct p4) (-1) 0 (Or.inl (by norm_num [p4]))

/-- Counterexample for C6 as stated: on a 4×4 grid, `x = 5` truncates
to column `i = 5 ≥ nx`, so the cell is out of the grid bounds, yet
`getFieldAt` returns the stored (nonzero) value of the wrapped
flattened index `0·4 + 5 = 5` instead of 0. -/
theorem getFieldAt_wrap_counterexample :
    ((sampleState4.params.nx : ℤ) ≤ ⌊(5 : ℝ)⌋) ∧
      (getFieldAt sampleState4 5 0).Ez = 1 := by
  have h5 : ⌊(5 : ℝ)⌋ = 5 := by
    rw [show (5 : ℝ) = ((5 : ℤ) : ℝ) by norm_num, Int.floor_intCast]
  have h0 : ⌊(0 : ℝ)⌋ = 0 := Int.floor_zero
  constructor
  · rw [h5]; norm_num [sampleState4, p4]
  · simp only [getFieldAt, sampleState4, p4, h5, h0]
    have ht : Int.toNat 5 = 5 := rfl
    norm_num [ht]

/-- The single-dipole instance of `applySources`: skip when the
truncated cell is out of bounds, otherwise add the sinusoid at the
cell. -/
theorem applySources_dipole (p : GridParams) (src : Source)
    (htype : src.type = SourceType.dipole) (g : Grid) (tI : ℕ) :
    applySources p [src] tI g =
      if ⌊src.x⌋ < 0 ∨ (p.nx : ℤ) ≤ ⌊src.x⌋ ∨ ⌊src.y⌋ < 0 ∨ (p.ny : ℤ) ≤ ⌊src.y⌋ then g
      else addAt g (cellIdx p ⌊src.x⌋ ⌊src.y⌋)
        (src.amplitude *
          Real.sin (2 * Real.pi * src.frequency * ((tI : ℝ) * p.dt) + src.phase)) := by
  obtain ⟨sid, ty, sx, sy, fr, am, ph, w, l, an, ch, cu, po⟩ := src
  subst htype
  rfl

/-- The first `step` after adding a single zero-phase dipole to a fresh
solver leaves all three field arrays zero: the injection pass runs at
time index 0, so the injected value is `A·sin(0) = 0`. -/
theorem dipole_first_step_zero (p : GridParams) (src : Source)
    (htype : src.type = SourceType.dipole) (hphase : src.phase = 0) :
    (∀ k, (step (addSource (construct p) src)).Ez k = 0) ∧
    (∀ k, (step (addSource (construct p) src)).Hx k = 0) ∧
    (∀ k, (step (addSource (construct p) src)).Hy k = 0) := by
  apply step_zero
  · exact fun _ => rfl
  · exact fun _ => rfl
  · exact fun _ => rfl
  · intro k
    show applySources p [src] 0 (fun _ => 0) k = 0
    rw [applySources_dipole p src htype]
    split
    · rfl
    · rw [hphase]
      simp [addAt]

/-- Claim C1 (amended): for a fresh solver with exactly one `dipole`
source of amplitude A, frequency f and phase 0 at a strictly interior
integer cell `(i, j)` whose conductivity entry is zero, the first
`step()` leaves `Ez` zero everywhere (injection happens at time index
0), and after the second `step()` the `Ez` value at the source cell is
exactly `A·sin(2π·f·dt)` (the neighboring H fields are still zero, so
no curl contribution reaches it). -/
theorem dipole_second_step_value (p : GridParams) (src : Source) (i j : ℕ)
    (htype : src.type = SourceType.dipole) (hphase : src.phase = 0)
    (hx : src.x = (i : ℝ)) (hy : src.y = (j : ℝ))
    (hi1 : 1 ≤ i) (hi2 : i + 1 < p.nx) (hj1 : 1 ≤ j) (hj2 : j + 1 < p.ny)
    (hsig : (construct p).sigma (j * p.nx + i) = 0) :
    (step (step (addSource (construct p) src))).Ez (j * p.nx + i) =
      src.amplitude * Real.sin (2 * Real.pi * src.frequency * p.dt) := by
  obtain ⟨z1, z2, z3⟩ := dipole_first_step_zero p src htype hphase
  set s1 := step (addSource (construct p) src) with hs1
  have hnx : 0 < p.nx := by omega
  have hi : i < p.nx := by omega
  have hj : j < p.ny := by omega
  set idx := j * p.nx + i with hidxdef
  have hmod : idx % p.nx = i := cell_mod i j hi
  have hdiv : idx / p.nx = j := cell_div i j hnx hi
  have hlt : idx < p.nx * p.ny := cell_lt i j hi hj
  have hH1 : ∀ k, (updateH p s1.Ez s1.Hx s1.Hy s1.Da s1.Db).1 k = 0 :=
    updateH_fst_zero p s1.Ez s1.Hx s1.Hy s1.Da s1.Db z1 z2
  have hH2 : ∀ k, (updateH p s1.Ez s1.Hx s1.Hy s1.Da s1.Db).2 k = 0 :=
    updateH_snd_zero p s1.Ez s1.Hx s1.Hy s1.Da s1.Db z1 z3
  have hfloorx : ⌊src.x⌋ = (i : ℤ) := by rw [hx]; exact Int.floor_natCast i
  have hfloory : ⌊src.y⌋ = (j : ℤ) := by rw [hy]; exact Int.floor_natCast j
  have hcell : cellIdx p (i : ℤ) (j : ℤ) = idx := by
    unfold cellIdx
    rw [show (j : ℤ) * (p.nx : ℤ) + (i : ℤ) = ((j * p.nx + i : ℕ) : ℤ) by push_cast; ring]
    exact Int.toNat_natCast _
  have he1 : ∀ k, applySources p [src] 1 s1.Ez k =
      if k = idx then src.amplitude * Real.sin (2 * Real.pi * src.frequency * p.dt)
      else 0 := by
    intro k
    rw [applySources_dipole p src htype]
    rw [if_neg (by
      rw [hfloorx, hfloory]
      push_neg
      refine ⟨by positivity, by exact_mod_cast hi, by positivity, by exact_mod_cast hj⟩)]
    rw [hfloorx, hfloory, hcell, hphase]
    unfold addAt
    by_cases hk : k = idx
    · subst hk
      simp [z1]
    · simp [hk, z1]
  have hCa1 : s1.Ca idx = 1 := by
    show (construct p).Ca idx = 1
    show (if idx < p.nx * p.ny then coeffCa p.dt 1 ((construct p).sigma idx)
      else (0 : ℝ)) = 1
    rw [if_pos hlt, hsig]
    unfold coeffCa
    norm_num
  have hnotrim : ¬((idx % p.nx = 0 ∧ idx / p.nx < p.ny) ∨
      (idx % p.nx = p.nx - 1 ∧ idx / p.nx < p.ny) ∨
      idx < p.nx ∨
      (idx / p.nx = p.ny - 1 ∧ idx % p.nx < p.nx)) := by
    have hge : p.nx ≤ j * p.nx := Nat.le_mul_of_pos_left p.nx (by omega)
    intro hcon
    rcases hcon with ⟨h1, _⟩ | ⟨h1, _⟩ | h1 | ⟨h1, _⟩
    · omega
    · omega
    · omega
    · omega
  have hinterior : 0 < idx % p.nx ∧ 0 < idx / p.nx ∧ idx / p.nx < p.ny := by
    rw [hmod, hdiv]
    omega
  show applyBoundaries p
      (updateE p (applySources p [src] 1 s1.Ez)
        (updateH p s1.Ez s1.Hx s1.Hy s1.Da s1.Db).1
        (updateH p s1.Ez s1.Hx s1.Hy s1.Da s1.Db).2 s1.Ca s1.Cb) idx =
    src.amplitude * Real.sin (2 * Real.pi * src.frequency * p.dt)
  unfold applyBoundaries
  rw [if_neg hnotrim]
  unfold updateE
  rw [if_pos hinterior]
  rw [he1 idx, if_pos rfl, hH1 idx, hH1 (idx - p.nx), hH2 idx, hH2 (idx - 1), hCa1]
  simp

/-- Counterexample for C1 as stated: on the 8×8 grid with the
amplitude-1, frequency-1/4, phase-0 dipole at cell (4,4) and `dt = 1`,
after the FIRST `step()` call `Ez` at the source cell is 0, while the
claimed value `A·sin(2π·f·dt) = sin(π/2)` is 1. -/
theorem dipole_first_step_counterexample :
    (step (addSource (construct p8) dip8)).Ez (4 * 8 + 4) = 0 ∧
      dip8.amplitude * Real.sin (2 * Real.pi * dip8.frequency * p8.dt) = 1 := by
  constructor
  · exact (dipole_first_step_zero p8 dip8 rfl rfl).1 _
  · show (1 : ℝ) * Real.sin (2 * Real.pi * (1 / 4) * 1) = 1
    rw [one_mul, show (2 : ℝ) * Real.pi * (1 / 4) * 1 = Real.pi / 2 by ring]
    exact Real.sin_pi_div_two

/-- Pointwise form of the `Ca` recompute. -/
theorem uc_Ca_pt (s : SolverState) (idx : ℕ) :
    (updateCoefficients s).Ca idx =
      if idx < s.params.nx * s.params.ny then
        coeffCa s.params.dt (s.epsilon idx) (s.sigma idx)
      else s.Ca idx := rfl

/-- Pointwise form of the `Cb` recompute. -/
theorem uc_Cb_pt (s : SolverState) (idx : ℕ) :
    (updateCoefficients s).Cb idx =
      if idx < s.params.nx * s.params.ny then
        coeffCb s.params.dt (s.epsilon idx) (s.sigma idx)
      else s.Cb idx := rfl

/-- Pointwise form of the `Da` recompute. -/
theorem uc_Da_pt (s : SolverState) (idx : ℕ) :
    (updateCoefficients s).Da idx =
      if idx < s.params.nx * s.params.ny then 1 else s.Da idx := rfl

/-- Pointwise form of the `Db` recompute. -/
theorem uc_Db_pt (s : SolverState) (idx : ℕ) :
    (updateCoefficients s).Db idx =
      if idx < s.params.nx * s.params.ny then coeffDb s.params.dt (s.mu idx)
      else s.Db idx := rfl

/-- `updateCoefficients` produces equal coefficient arrays on two
states whose parameters and material arrays agree and whose previous
coefficient arrays agree off-range. -/
theorem uc_coeff_ext (s t : SolverState) (hp : s.params = t.params)
    (he : ∀ idx, s.epsilon idx = t.epsilon idx)
    (hm : ∀ idx, s.mu idx = t.mu idx)
    (hs : ∀ idx, s.sigma idx = t.sigma idx)
    (hca : ∀ idx, ¬ idx < s.params.nx * s.params.ny → s.Ca idx = t.Ca idx)
    (hcb : ∀ idx, ¬ idx < s.params.nx * s.params.ny → s.Cb idx = t.Cb idx)
    (hda : ∀ idx, ¬ idx < s.params.nx * s.params.ny → s.Da idx = t.Da idx)
    (hdb : ∀ idx, ¬ idx < s.params.nx * s.params.ny → s.Db idx = t.Db idx) :
    (updateCoefficients s).Ca = (updateCoefficients t).Ca ∧
    (updateCoefficients s).Cb = (updateCoefficients t).Cb ∧
    (updateCoefficients s).Da = (updateCoefficients t).Da ∧
    (updateCoefficients s).Db = (updateCoefficients t).Db := by
  refine ⟨funext fun idx => ?_, funext fun idx => ?_,
    funext fun idx => ?_, funext fun idx => ?_⟩
  · rw [uc_Ca_pt, uc_Ca_pt, ← hp]
    by_cases h : idx < s.params.nx * s.params.ny
    · rw [if_pos h, if_pos h, he idx, hs idx]
    · rw [if_neg h, if_neg h]; exact hca idx h
  · rw [uc_Cb_pt, uc_Cb_pt, ← hp]
    by_cases h : idx < s.params.nx * s.params.ny
    · rw [if_pos h, if_pos h, he idx, hs idx]
    · rw [if_neg h, if_neg h]; exact hcb idx h
  · rw [uc_Da_pt, uc_Da_pt, ← hp]
    by_cases h : idx < s.params.nx * s.params.ny
    · rw [if_pos h, if_pos h]
    · rw [if_neg h, if_neg h]; exact hda idx h
  · rw [uc_Db_pt, uc_Db_pt, ← hp]
    by_cases h : idx < s.params.nx * s.params.ny
    · rw [if_pos h, if_pos h, hm idx]
    · rw [if_neg h, if_neg h]; exact hdb idx h

/-- Merging the overlay after erasing a painted region (whose
complement already carries a twice-merged array over the all-zero
base) gives back the once-merged all-zero base. -/
theorem merge_paint_erase (p : GridParams) (hit : ℕ → Prop) [DecidablePred hit]
    (pv : Grid) :
    pmlMergeSigma p (fun idx => if hit idx then 0 else
      pmlMergeSigma p (fun k => if hit k then pv k
        else pmlMergeSigma p (fun _ => 0) k) idx) =
    pmlMergeSigma p (fun _ => 0) := by
  by_cases hT : pmlThicknessEff p = 0
  · funext idx
    simp only [pmlMergeSigma, hT, if_pos]
    by_cases h : hit idx <;> simp [h]
  · funext idx
    simp only [pmlMergeSigma, hT, if_neg, ite_false]
    by_cases h : hit idx
    · simp [h]
    · simp [h, pmlMergePoint_idem]

/-- `removeObstacle` after `addObstacle` reduces (by the successful
id lookup) to a recompute pass over `addRemoveMid`. -/
theorem remove_after_add (p : GridParams) (o : Obstacle) :
    removeObstacle (addObstacle (construct p) o) o.id =
      updateCoefficients (setupPML (addRemoveMid p o)) := by
  have hfind : (addObstacle (construct p) o).obstacles.find?
      (fun o2 => o2.id == o.id) = some o := by
    show List.find? _ ([] ++ [o]) = some o
    simp
  unfold removeObstacle
  rw [hfind]
  rfl

/-- After the erase pass of the round trip, epsilon is 1 everywhere. -/
theorem mid_epsilon (p : GridParams) (o : Obstacle) :
    ∀ idx, (setupPML (addRemoveMid p o)).epsilon idx = 1 := by
  intro idx
  show (if obstacleHit p o idx then (1 : ℝ)
    else if obstacleHit p o idx then o.material.epsilon else 1) = 1
  by_cases h : obstacleHit p o idx <;> simp [h]

/-- After the erase pass of the round trip, mu is 1 everywhere. -/
theorem mid_mu (p : GridParams) (o : Obstacle) :
    ∀ idx, (setupPML (addRemoveMid p o)).mu idx = 1 := by
  intro idx
  show (if obstacleHit p o idx then (1 : ℝ)
    else if obstacleHit p o idx then o.material.mu else 1) = 1
  by_cases h : obstacleHit p o idx <;> simp [h]

/-- After the re-merge of the round trip, sigma equals the pristine
merged overlay. -/
theorem mid_sigma (p : GridParams) (o : Obstacle) :
    (setupPML (addRemoveMid p o)).sigma = (construct p).sigma :=
  merge_paint_erase p (obstacleHit p o) (fun _ => o.material.sigma)

/-- Off-range entries of `Ca` are unchanged through the round trip. -/
theorem mid_Ca_off (p : GridParams) (o : Obstacle) :
    ∀ idx, ¬ idx < (setupPML (addRemoveMid p o)).params.nx *
        (setupPML (addRemoveMid p o)).params.ny →
      (setupPML (addRemoveMid p o)).Ca idx = (setupPML (initState p)).Ca idx := by
  intro idx h
  have h' : ¬ idx < p.nx * p.ny := h
  show (if idx < p.nx * p.ny then
      coeffCa p.dt ((setupPML (paintedState p o)).epsilon idx)
        ((setupPML (paintedState p o)).sigma idx)
    else (setupPML (paintedState p o)).Ca idx) = (setupPML (initState p)).Ca idx
  rw [if_neg h']
  show (if idx < p.nx * p.ny then
      coeffCa p.dt ((setupPML (initState p)).epsilon idx)
        ((setupPML (initState p)).sigma idx)
    else (setupPML (initState p)).Ca idx) = (setupPML (initState p)).Ca idx
  rw [if_neg h']

/-- Off-range entries of `Cb` are unchanged through the round trip. -/
theorem mid_Cb_off (p : GridParams) (o : Obstacle) :
    ∀ idx, ¬ idx < (setupPML (addRemoveMid p o)).params.nx *
        (setupPML (addRemoveMid p o)).params.ny →
      (setupPML (addRemoveMid p o)).Cb idx = (setupPML (initState p)).Cb idx := by
  intro idx h
  have h' : ¬ idx < p.nx * p.ny := h
  show (if idx < p.nx * p.ny then
      coeffCb p.dt ((setupPML (paintedState p o)).epsilon idx)
        ((setupPML (paintedState p o)).sigma idx)
    else (setupPML (paintedState p o)).Cb idx) = (setupPML (initState p)).Cb idx
  rw [if_neg h']
  show (if idx < p.nx * p.ny then
      coeffCb p.dt ((setupPML (initState p)).epsilon idx)
        ((setupPML (initState p)).sigma idx)
    else (setupPML (initState p)).Cb idx) = (setupPML (initState p)).Cb idx
  rw [if_neg h']

/-- Off-range entries of `Da` are unchanged through the round trip. -/
theorem mid_Da_off (p : GridParams) (o : Obstacle) :
    ∀ idx, ¬ idx < (setupPML (addRemoveMid p o)).params.nx *
        (setupPML (addRemoveMid p o)).params.ny →
      (setupPML (addRemoveMid p o)).Da idx = (setupPML (initState p)).Da idx := by
  intro idx h
  have h' : ¬ idx < p.nx * p.ny := h
  show (if idx < p.nx * p.ny then (1 : ℝ)
    else (setupPML (paintedState p o)).Da idx) = (setupPML (initState p)).Da idx
  rw [if_neg h']
  show (if idx < p.nx * p.ny then (1 : ℝ)
    else (setupPML (initState p)).Da idx) = (setupPML (initState p)).Da idx
  rw [if_neg h']

/-- Off-range entries of `Db` are unchanged through the round trip. -/
theorem mid_Db_off (p : GridParams) (o : Obstacle) :
    ∀ idx, ¬ idx < (setupPML (addRemoveMid p o)).params.nx *
        (setupPML (addRemoveMid p o)).params.ny →
      (setupPML (addRemoveMid p o)).Db idx = (setupPML (initState p)).Db idx := by
  intro idx h
  have h' : ¬ idx < p.nx * p.ny := h
  show (if idx < p.nx * p.ny then
      coeffDb p.dt ((setupPML (paintedState p o)).mu idx)
    else (setupPML (paintedState p o)).Db idx) = (setupPML (initState p)).Db idx
  rw [if_neg h']
  show (if idx < p.nx * p.ny then
      coeffDb p.dt ((setupPML (initState p)).mu idx)
    else (setupPML (initState p)).Db idx) = (setupPML (initState p)).Db idx
  rw [if_neg h']

/-- Claim C5 (amended): `addObstacle(o)` followed by
`removeObstacle(o.id)` on a freshly constructed (pristine-vacuum)
solver restores the material arrays exactly to the pristine baseline —
epsilon and mu are 1 everywhere, and sigma equals the pristine merged
PML overlay, which is 0 outside the boundary band but positive inside
it (so a touched cell inside the band does not end at sigma = 0) — and
the recompiled `Ca`, `Cb`, `Da`, `Db` arrays equal the pristine-vacuum
baseline, as does the obstacle list. -/
theorem obstacle_add_remove_restores (p : GridParams) (o : Obstacle) :
    (removeObstacle (addObstacle (construct p) o) o.id).epsilon = (construct p).epsilon ∧
    (removeObstacle (addObstacle (construct p) o) o.id).mu = (construct p).mu ∧
    (removeObstacle (addObstacle (construct p) o) o.id).sigma = (construct p).sigma ∧
    (removeObstacle (addObstacle (construct p) o) o.id).Ca = (construct p).Ca ∧
    (removeObstacle (addObstacle (construct p) o) o.id).Cb = (construct p).Cb ∧
    (removeObstacle (addObstacle (construct p) o) o.id).Da = (construct p).Da ∧
    (removeObstacle (addObstacle (construct p) o) o.id).Db = (construct p).Db ∧
    (removeObstacle (addObstacle (construct p) o) o.id).obstacles =
      (construct p).obstacles := by
  rw [remove_after_add]
  obtain ⟨hca, hcb, hda, hdb⟩ :=
    uc_coeff_ext (setupPML (addRemoveMid p o)) (setupPML (initState p)) rfl
      (fun idx => mid_epsilon p o idx)
      (fun idx => mid_mu p o idx)
      (fun idx => congrFun (mid_sigma p o) idx)
      (mid_Ca_off p o) (mid_Cb_off p o) (mid_Da_off p o) (mid_Db_off p o)
  refine ⟨funext fun idx => mid_epsilon p o idx, funext fun idx => mid_mu p o idx,
    mid_sigma p o, hca, hcb, hda, hdb, ?_⟩
  show List.filter (fun o2 => !(o2.id == o.id)) ([] ++ [o]) = ([] : List Obstacle)
  simp

/-- The vacuum permittivity constant is positive. -/
theorem eps0_pos : (0 : ℝ) < eps0 := by norm_num [eps0]

/-- The vacuum permeability constant is positive. -/
theorem mu0_pos : (0 : ℝ) < mu0 := by
  unfold mu0
  positivity

/-- The free-space impedance is positive. -/
theorem eta0_pos : (0 : ℝ) < eta0 :=
  Real.sqrt_pos.mpr (div_pos mu0_pos eps0_pos)

/-- The log of the target reflection coefficient is negative. -/
theorem logR_neg : Real.log pmlReflection < 0 :=
  Real.log_neg (by norm_num [pmlReflection]) (by norm_num [pmlReflection])

/-- The peak x-axis PML conductivity is positive for a positive step
and nonzero band. -/
theorem sigmaMaxX_pos (p : GridParams) (hdx : 0 < p.dx)
    (hT : 0 < pmlThicknessEff p) : 0 < sigmaMaxX p := by
  unfold sigmaMaxX
  apply div_pos
  · have h1 : ((pmlOrder : ℕ) : ℝ) + 1 = 4 := by norm_num [pmlOrder]
    rw [h1]
    nlinarith [logR_neg]
  · have hTr : (0 : ℝ) < (pmlThicknessEff p : ℝ) := by exact_mod_cast hT
    exact mul_pos (mul_pos (mul_pos two_pos eta0_pos) hTr) hdx

/-- The peak y-axis PML conductivity is positive for a positive step
and nonzero band. -/
theorem sigmaMaxY_pos (p : GridParams) (hdy : 0 < p.dy)
    (hT : 0 < pmlThicknessEff p) : 0 < sigmaMaxY p := by
  unfold sigmaMaxY
  apply div_pos
  · have h1 : ((pmlOrder : ℕ) : ℝ) + 1 = 4 := by norm_num [pmlOrder]
    rw [h1]
    nlinarith [logR_neg]
  · have hTr : (0 : ℝ) < (pmlThicknessEff p : ℝ) := by exact_mod_cast hT
    exact mul_pos (mul_pos (mul_pos two_pos eta0_pos) hTr) hdy

/-- Counterexample for C5 as stated: on the 80×80 grid (effective PML
thickness 20) with a one-cell obstacle at (0,0), the cell is touched by
the obstacle's rectangle, yet after `addObstacle` then `removeObstacle`
the cell's sigma is not 0 — the remove pass re-runs `setupPML`, which
restores the positive PML overlay there. -/
theorem obstacle_add_remove_counterexample :
    obstacleHit p80 obs80 0 ∧
      (removeObstacle (addObstacle (construct p80) obs80) obs80.id).sigma 0 ≠ 0 := by
  have hT20 : pmlThicknessEff p80 = 20 := by
    norm_num [pmlThicknessEff, pmlThickness, p80]
  have hsx : 0 < pmlSigmaX p80 0 := by
    have hsm := sigmaMaxX_pos p80 (by norm_num [p80]) (by rw [hT20]; norm_num)
    unfold pmlSigmaX pmlProfile
    rw [hT20]
    norm_num [pmlOrder]
    exact hsm
  have hsy : 0 < pmlSigmaY p80 0 := by
    have hsm := sigmaMaxY_pos p80 (by norm_num [p80]) (by rw [hT20]; norm_num)
    unfold pmlSigmaY pmlProfile
    rw [hT20]
    norm_num [pmlOrder]
    exact hsm
  have hov : 0 < pmlSigmaX p80 (0 % p80.nx) + pmlSigmaY p80 (0 / p80.nx) := by
    have e1 : (0 : ℕ) % p80.nx = 0 := Nat.zero_mod _
    have e2 : (0 : ℕ) / p80.nx = 0 := Nat.zero_div _
    rw [e1, e2]
    exact add_pos hsx hsy
  constructor
  · refine ⟨by norm_num [p80], ?_⟩
    show inRect obs80 ((((0 : ℕ) % p80.nx : ℕ)) : ℤ) ((((0 : ℕ) / p80.nx : ℕ)) : ℤ)
    unfold inRect
    norm_num [obs80]
  · rw [remove_after_add]
    show (setupPML (addRemoveMid p80 obs80)).sigma 0 ≠ 0
    rw [congrFun (mid_sigma p80 obs80) 0]
    show pmlMergePoint p80 0 0 ≠ 0
    simp only [pmlMergePoint]
    rw [if_pos (show (0 : ℕ) < p80.nx * p80.ny by norm_num [p80]), if_pos hov]
    exact (lt_of_lt_of_le hov (le_max_right 0 _)).ne'

/-- The graded PML profile is nonnegative when its peak is. -/
theorem pmlProfile_nonneg (T n : ℕ) (sm : ℝ) (i : ℕ) (hsm : 0 ≤ sm) :
    0 ≤ pmlProfile T n sm i := by
  unfold pmlProfile
  split
  · next h =>
    have hT : (0 : ℝ) < (T : ℝ) := by
      have : 0 < T := lt_of_le_of_lt (Nat.zero_le i) h
      exact_mod_cast this
    apply mul_nonneg hsm
    apply pow_nonneg
    apply div_nonneg _ hT.le
    have : (i : ℝ) < (T : ℝ) := by exact_mod_cast h
    linarith
  · split
    · next h1 h2 =>
      apply mul_nonneg hsm
      apply pow_nonneg
      apply le_min _ (by norm_num)
      apply div_nonneg
      · have : (n : ℝ) ≤ (i : ℝ) + (T : ℝ) := by exact_mod_cast h2
        linarith
      · positivity
    · norm_num

/-- Inside the left/top band, the profile does not increase moving
inward (equivalently: non-decreasing moving outward). -/
theorem pmlProfile_mono_left (T n : ℕ) (sm : ℝ) (i : ℕ) (hsm : 0 ≤ sm)
    (h : i + 1 < T) : pmlProfile T n sm (i + 1) ≤ pmlProfile T n sm i := by
  have hi : i < T := by omega
  have hTpos : (0 : ℝ) < (T : ℝ) := by
    have : (0 : ℕ) < T := by omega
    exact_mod_cast this
  unfold pmlProfile
  rw [if_pos h, if_pos hi]
  apply mul_le_mul_of_nonneg_left _ hsm
  apply pow_le_pow_left
  · apply div_nonneg _ hTpos.le
    have : ((i : ℝ) + 1) < (T : ℝ) := by exact_mod_cast h
    push_cast
    linarith
  · apply (div_le_div_right hTpos).mpr
    push_cast
    linarith

/-- Inside the right/bottom band, the profile is non-decreasing moving
outward (toward larger index). -/
theorem pmlProfile_mono_right (T n : ℕ) (sm : ℝ) (i : ℕ) (hsm : 0 ≤ sm)
    (hTi : T ≤ i) (hband : n ≤ i + T) (hTpos : 0 < T) :
    pmlProfile T n sm i ≤ pmlProfile T n sm (i + 1) := by
  have h1 : ¬ i < T := by omega
  have h2 : ¬ i + 1 < T := by omega
  have hb2 : n ≤ (i + 1) + T := by omega
  have hTr : (0 : ℝ) < (T : ℝ) := by exact_mod_cast hTpos
  unfold pmlProfile
  rw [if_neg h1, if_pos hband, if_neg h2, if_pos hb2]
  apply mul_le_mul_of_nonneg_left _ hsm
  apply pow_le_pow_left
  · apply le_min _ (by norm_num)
    apply div_nonneg _ hTr.le
    have : (n : ℝ) ≤ (i : ℝ) + (T : ℝ) := by exact_mod_cast hband
    linarith
  · apply min_le_min _ le_rfl
    apply (div_le_div_right hTr).mpr
    push_cast
    linarith

/-- Strictly inside the interior, the profile is zero. -/
theorem pmlProfile_interior (T n : ℕ) (sm : ℝ) (i : ℕ)
    (h1 : ¬ i < T) (h2 : ¬ n ≤ i + T) : pmlProfile T n sm i = 0 := by
  unfold pmlProfile
  rw [if_neg h1, if_neg h2]

/-- After construction (nonzero band, nonnegative peaks), sigma at an
in-range index equals the overlay `sigmaX + sigmaY`. -/
theorem construct_sigma_pt (p : GridParams) (hT : pmlThicknessEff p ≠ 0)
    (hx : 0 ≤ sigmaMaxX p) (hy : 0 ≤ sigmaMaxY p) (idx : ℕ)
    (hidx : idx < p.nx * p.ny) :
    (construct p).sigma idx = pmlSigmaX p (idx % p.nx) + pmlSigmaY p (idx / p.nx) := by
  have hnn : 0 ≤ pmlSigmaX p (idx % p.nx) + pmlSigmaY p (idx / p.nx) :=
    add_nonneg (pmlProfile_nonneg _ _ _ _ hx) (pmlProfile_nonneg _ _ _ _ hy)
  show pmlMergeSigma p (fun _ => 0) idx = _
  unfold pmlMergeSigma
  rw [if_neg hT]
  show pmlMergePoint p idx 0 = _
  unfold pmlMergePoint
  rw [if_pos hidx]
  show (if 0 < pmlSigmaX p (idx % p.nx) + pmlSigmaY p (idx / p.nx) then
      max 0 (pmlSigmaX p (idx % p.nx) + pmlSigmaY p (idx / p.nx)) else 0) =
    pmlSigmaX p (idx % p.nx) + pmlSigmaY p (idx / p.nx)
  by_cases h : 0 < pmlSigmaX p (idx % p.nx) + pmlSigmaY p (idx / p.nx)
  · rw [if_pos h]
    exact max_eq_right h.le
  · rw [if_neg h]
    have h' := not_lt.mp h
    linarith

/-- Claim C7: after construction with no obstacles on a grid large
enough that the effective PML thickness is 20 (nx, ny ≥ 80) and
positive spatial steps, sigma is non-decreasing moving outward toward
each domain edge within the 20-cell band along each axis, and is
exactly zero at every cell strictly inside the interior beyond the
band. -/
theorem pml_monotone_bound (p : GridParams) (h80x : 80 ≤ p.nx) (h80y : 80 ≤ p.ny)
    (hdx : 0 < p.dx) (hdy : 0 < p.dy) :
    (∀ i j, 20 ≤ i → i + 20 < p.nx → 20 ≤ j → j + 20 < p.ny →
      (construct p).sigma (j * p.nx + i) = 0) ∧
    (∀ i j, i + 1 < 20 → j < p.ny →
      (construct p).sigma (j * p.nx + (i + 1)) ≤ (construct p).sigma (j * p.nx + i)) ∧
    (∀ i j, p.nx ≤ i + 20 → i + 1 < p.nx → j < p.ny →
      (construct p).sigma (j * p.nx + i) ≤ (construct p).sigma (j * p.nx + (i + 1))) ∧
    (∀ i j, j + 1 < 20 → i < p.nx →
      (construct p).sigma ((j + 1) * p.nx + i) ≤ (construct p).sigma (j * p.nx + i)) ∧
    (∀ i j, p.ny ≤ j + 20 → j + 1 < p.ny → i < p.nx →
      (construct p).sigma (j * p.nx + i) ≤ (construct p).sigma ((j + 1) * p.nx + i)) := by
  have hnx : 0 < p.nx := by omega
  have hT : pmlThicknessEff p = 20 := by
    unfold pmlThicknessEff pmlThickness
    omega
  have hTpos : 0 < pmlThicknessEff p := by omega
  have hX0 : 0 ≤ sigmaMaxX p := (sigmaMaxX_pos p hdx hTpos).le
  have hY0 : 0 ≤ sigmaMaxY p := (sigmaMaxY_pos p hdy hTpos).le
  have hsig : ∀ i j, i < p.nx → j < p.ny →
      (construct p).sigma (j * p.nx + i) = pmlSigmaX p i + pmlSigmaY p j := by
    intro i j hi hj
    rw [construct_sigma_pt p (by omega) hX0 hY0 _ (cell_lt i j hi hj),
      cell_mod i j hi, cell_div i j hnx hi]
  refine ⟨?_, ?_, ?_, ?_, ?_⟩
  · intro i j h1 h2 h3 h4
    rw [hsig i j (by omega) (by omega)]
    have e1 : pmlSigmaX p i = 0 :=
      pmlProfile_interior _ _ _ _ (by omega) (by omega)
    have e2 : pmlSigmaY p j = 0 :=
      pmlProfile_interior _ _ _ _ (by omega) (by omega)
    rw [e1, e2]
    norm_num
  · intro i j hi20 hj
    rw [hsig (i + 1) j (by omega) hj, hsig i j (by omega) hj]
    exact add_le_add_right
      (pmlProfile_mono_left (pmlThicknessEff p) p.nx (sigmaMaxX p) i hX0 (by omega)) _
  · intro i j hband hiA hj
    rw [hsig i j (by omega) hj, hsig (i + 1) j hiA hj]
    exact add_le_add_right
      (pmlProfile_mono_right (pmlThicknessEff p) p.nx (sigmaMaxX p) i hX0
        (by omega) (by omega) hTpos) _
  · intro i j hj20 hi
    rw [hsig i (j + 1) hi (by omega), hsig i j hi (by omega)]
    exact add_le_add_left
      (pmlProfile_mono_left (pmlThicknessEff p) p.ny (sigmaMaxY p) j hY0 (by omega)) _
  · intro i j hband hjA hi
    rw [hsig i j hi (by omega), hsig i (j + 1) hi hjA]
    exact add_le_add_left
      (pmlProfile_mono_right (pmlThicknessEff p) p.ny (sigmaMaxY p) j hY0
        (by omega) (by omega) hTpos) _

/-- Witness for C7: the center cell of the 80×80 grid is strictly
interior, so its sigma is zero. -/
theorem pml_monotone_bound_witness : (construct p80).sigma (40 * 80 + 40) = 0 :=
  (pml_monotone_bound p80 (by norm_num [p80]) (by norm_num [p80])
    (by norm_num [p80]) (by norm_num [p80])).1 40 40
    (by norm_num) (by norm_num [p80]) (by norm_num) (by norm_num [p80])

/-- Witness for C1 (amended): concrete evaluation on the 8×8 grid with
the dipole at interior cell (4,4), outside the (2-cell effective) PML
band. -/
theorem dipole_second_step_value_witness :
    (step (step (addSource (construct p8) dip8))).Ez (4 * 8 + 4) =
      dip8.amplitude * Real.sin (2 * Real.pi * dip8.frequency * p8.dt) :=
  dipole_second_step_value p8 dip8 4 4 rfl rfl (by norm_num [dip8])
    (by norm_num [dip8]) (by norm_num) (by norm_num [p8]) (by norm_num)
    (by norm_num [p8])
    (by
      show pmlMergeSigma p8 (fun _ => 0) 36 = 0
      norm_num [pmlMergeSigma, pmlMergePoint, pmlThicknessEff, pmlThickness,
        pmlSigmaX, pmlSigmaY, pmlProfile, p8])

end Maxwell

end
